import Mathlib

/-!
Verification of the `hizli` code-generation toolkit (hizli-core + hizli-macros).

The development shallowly embeds the crate: `syn` AST inputs are modelled as
plain inductive data (spans become abstract `Nat` identifiers), and the
`proc_macro2::TokenStream` values produced with `quote!` are modelled as lists
of structural tokens (`Tok`).  Every definition follows the corresponding Rust
item; file and function names are kept where Lean allows it.
-/

namespace Hizli

/-- Abstract source position (`proc_macro2::Span`), identified by a number. -/
abbrev Span := Nat

/-- A Rust type as it occurs in a field (`syn::Type`), identified by the string
rendering of its token stream (`to_token_stream`). -/
structure Ty where
  tokens : String
deriving DecidableEq, Repr

/-- One field of a struct, tuple struct or enum variant (`syn::Field`).
`ident` is `None` for positional (tuple) fields.  The field span feeds the
synthetic identifiers and indices built by `FieldBinding::new`; it is not
inspected by any claim, so `Member` below elides it. -/
structure Field where
  ident : Option String
  span : Span
  ty : Ty
deriving DecidableEq, Repr

/-- Field collection of a struct or variant (`syn::Fields`). -/
inductive Fields where
  | unit : Fields
  | named (fs : List Field) : Fields
  | unnamed (fs : List Field) : Fields
deriving DecidableEq, Repr

/-- Iteration over the fields (`syn::Fields::iter`). -/
def Fields.toList : Fields → List Field
  | .unit => []
  | .named fs => fs
  | .unnamed fs => fs

/-- Field accessor (`syn::Member`): by name or by numeric position.  The span
carried by `syn::Index` is elided (no claim concerns it). -/
inductive Member where
  | named (name : String) : Member
  | unnamed (idx : Nat) : Member
deriving DecidableEq, Repr

/-- Iteration producing one `Member` per field (`syn::Fields::members`):
a named member for named fields, the running index for positional ones.
`syn` stores the index as a `u32`; the claims only inspect index `0`, so the
counter is kept as a plain natural number. -/
def Fields.membersAux : Nat → List Field → List Member
  | _, [] => []
  | i, f :: fs =>
    (match f.ident with
     | some n => Member.named n
     | none => Member.unnamed i) :: Fields.membersAux (i + 1) fs

/-- All members of a field collection, in declaration order. -/
def Fields.members (fields : Fields) : List Member :=
  Fields.membersAux 0 fields.toList

/-- Delimiters of a `proc_macro2::Group`. -/
inductive Delim where
  | paren : Delim
  | brace : Delim
  | bracket : Delim
deriving DecidableEq, Repr

/-- Structural token of an emitted `TokenStream`: identifier, punctuation,
literal, an interpolated field type, or a group delimiter.  A
`proc_macro2::Group` is a balanced pair of delimiters around its contents, so
a stream is modelled as the flat token sequence with explicit opening
(`bopen`) and closing (`bclose`) delimiter tokens — exactly how the stream
prints, and information-equivalent for the balanced streams `quote!` emits. -/
inductive Tok where
  | ident (s : String) : Tok
  | punct (s : String) : Tok
  | lit (s : String) : Tok
  | ty (t : Ty) : Tok
  | bopen (d : Delim) : Tok
  | bclose (d : Delim) : Tok
deriving DecidableEq, Repr

/-- An emitted code fragment (`proc_macro2::TokenStream`). -/
abbrev TokenStream := List Tok

/-- A delimited group: opening delimiter, contents, closing delimiter. -/
def Tok.grp (d : Delim) (ts : TokenStream) : TokenStream :=
  Tok.bopen d :: ts ++ [Tok.bclose d]

/-- Comma separation, as produced by the `quote!` repetition `#(#x),*`. -/
def sepComma : List TokenStream → TokenStream
  | [] => []
  | [t] => t
  | t :: rest => t ++ Tok.punct "," :: sepComma rest

/-- Structural layout of a field collection
(src/hizli-core/src/bindings/field_type.rs, `FieldType`). -/
inductive FieldType where
  | Unit : FieldType
  | Named : FieldType
  | Unnamed : FieldType
deriving DecidableEq, Repr

/-- Layout inference (`FieldType::new`). -/
def FieldType.new : Fields → FieldType
  | .unit => .Unit
  | .named _ => .Named
  | .unnamed _ => .Unnamed

/-- Delimiter wrapping (`FieldType::wrap`): `Unit` leaves the tokens alone,
`Named` encloses them in braces, `Unnamed` in parentheses. -/
def FieldType.wrap : FieldType → TokenStream → TokenStream
  | .Unit, inner => inner
  | .Named, inner => Tok.grp .brace inner
  | .Unnamed, inner => Tok.grp .paren inner

/-- A single field binding
(src/hizli-core/src/bindings/field_binding.rs, `FieldBinding`).  The `Ident`
span (`field.span()`) is elided; no claim concerns it. -/
structure FieldBinding where
  ident : String
  member : Member
deriving DecidableEq, Repr

/-- Binding construction (`FieldBinding::new`): named fields reuse their
identifier; unnamed fields get the synthetic name `binding_{idx}` and the
member index `idx.try_into().unwrap_or_default()` — the `usize` index if it
fits in a `u32`, otherwise `0`. -/
def FieldBinding.new (idx : Nat) (field : Field) : FieldBinding :=
  match field.ident with
  | some ident => { ident := ident, member := Member.named ident }
  | none =>
    { ident := "binding_" ++ Nat.repr idx
      member := Member.unnamed (if idx < 2 ^ 32 then idx else 0) }

/-- Loop of `FieldBinding::from_fields`
(`fields.iter().enumerate().map(Self::new).collect()`), with the running
enumeration index made explicit. -/
def FieldBinding.fromFieldsAux : Nat → List Field → List FieldBinding
  | _, [] => []
  | i, f :: fs => FieldBinding.new i f :: FieldBinding.fromFieldsAux (i + 1) fs

/-- One binding per field of the collection (`FieldBinding::from_fields`). -/
def FieldBinding.from_fields (fields : Fields) : List FieldBinding :=
  FieldBinding.fromFieldsAux 0 fields.toList

/-- Decidable equality for `Except`, so that concrete generator outcomes can
be evaluated by `decide`. -/
instance {ε α : Type} [DecidableEq ε] [DecidableEq α] : DecidableEq (Except ε α) :=
  fun x y =>
    match x, y with
    | .error a, .error b =>
      if h : a = b then .isTrue (by rw [h])
      else .isFalse (fun hh => h (Except.error.inj hh))
    | .ok a, .ok b =>
      if h : a = b then .isTrue (by rw [h])
      else .isFalse (fun hh => h (Except.ok.inj hh))
    | .error _, .ok _ => .isFalse (fun hh => Except.noConfusion hh)
    | .ok _, .error _ => .isFalse (fun hh => Except.noConfusion hh)

/-- A diagnostic (`syn::Error`): the anchoring span and the message. -/
structure Error where
  span : Span
  msg : String
deriving DecidableEq, Repr

/-- One enum variant (`syn::Variant`): its name, the span of that name, and
its fields. -/
structure Variant where
  ident : String
  identSpan : Span
  fields : Fields
deriving DecidableEq, Repr

/-- Struct payload (`syn::DataStruct`): the span of the `struct` keyword and
the fields. -/
structure DataStruct where
  structTokenSpan : Span
  fields : Fields
deriving DecidableEq, Repr

/-- Enum payload (`syn::DataEnum`): the span of the `enum` keyword and the
variants in declaration order. -/
structure DataEnum where
  enumTokenSpan : Span
  variants : List Variant
deriving DecidableEq, Repr

/-- Union payload (`syn::DataUnion`): the span of the `union` keyword and the
named fields. -/
structure DataUnion where
  unionTokenSpan : Span
  fields : List Field
deriving DecidableEq, Repr

/-- The shape of a derive input (`syn::Data`). -/
inductive Data where
  | struct (s : DataStruct) : Data
  | enum (e : DataEnum) : Data
  | union (u : DataUnion) : Data
deriving DecidableEq, Repr

/-- Shape-gate result admitting structs and enums
(src/hizli-core/src/data.rs, `StructEnumOnly`). -/
inductive StructEnumOnly where
  | struct (s : DataStruct) : StructEnumOnly
  | enum (e : DataEnum) : StructEnumOnly
deriving DecidableEq, Repr

/-- Narrowing to struct-or-enum (`StructEnumOnly::try_new`): unions are
rejected at the `union` keyword. -/
def StructEnumOnly.try_new (data : Data) (derive_name : String) :
    Except Error StructEnumOnly :=
  match data with
  | .struct s => .ok (.struct s)
  | .enum e => .ok (.enum e)
  | .union u =>
    .error ⟨u.unionTokenSpan, "Cannot #[derive(" ++ derive_name ++ ")] On Union"⟩

/-- Narrowing to structs only (src/hizli-core/src/data.rs,
`StructOnly::try_new`); the single-field wrapper is transparent, so the
payload is returned directly. -/
def StructOnly.try_new (data : Data) (derive_name : String) :
    Except Error DataStruct :=
  match data with
  | .struct s => .ok s
  | .enum e =>
    .error ⟨e.enumTokenSpan, "Cannot #[derive(" ++ derive_name ++ ")] On Enum"⟩
  | .union u =>
    .error ⟨u.unionTokenSpan, "Cannot #[derive(" ++ derive_name ++ ")] On Union"⟩

/-- Narrowing to enums only (src/hizli-core/src/data.rs,
`EnumOnly::try_new`). -/
def EnumOnly.try_new (data : Data) (derive_name : String) :
    Except Error DataEnum :=
  match data with
  | .enum e => .ok e
  | .struct s =>
    .error ⟨s.structTokenSpan, "Cannot #[derive(" ++ derive_name ++ ")] On Struct"⟩
  | .union u =>
    .error ⟨u.unionTokenSpan, "Cannot #[derive(" ++ derive_name ++ ")] On Union"⟩

/-- Aggregate of the field bindings and the layout of one struct-like shape
(src/hizli-core/src/bindings/struct_binding.rs, `StructBinding`). -/
structure StructBinding where
  field_bindings : List FieldBinding
  field_type : FieldType
deriving DecidableEq, Repr

/-- Construction from a field collection (`StructBinding::new`). -/
def StructBinding.new (fields : Fields) : StructBinding :=
  { field_bindings := FieldBinding.from_fields fields
    field_type := FieldType.new fields }

/-- A bound enum variant
(src/hizli-core/src/bindings/variant_binding.rs, `VariantBinding`). -/
structure VariantBinding where
  ident : String
  struct_binding : StructBinding
deriving DecidableEq, Repr

/-- Construction from a variant (`VariantBinding::new`). -/
def VariantBinding.new (variant : Variant) : VariantBinding :=
  { ident := variant.ident
    struct_binding := StructBinding.new variant.fields }

/-- Accessor `VariantBinding::field_bindings`. -/
def VariantBinding.field_bindings (b : VariantBinding) : List FieldBinding :=
  b.struct_binding.field_bindings

/-- Accessor `VariantBinding::field_type`. -/
def VariantBinding.field_type (b : VariantBinding) : FieldType :=
  b.struct_binding.field_type

/-- Match-pattern synthesis
(src/hizli-core/src/bindings/variant_pattern.rs, `variant_pattern`): the
variant name followed by the comma-joined binding names wrapped per layout. -/
def VariantBinding.variant_pattern (b : VariantBinding) : TokenStream :=
  Tok.ident b.ident ::
    b.field_type.wrap (sepComma (b.field_bindings.map (fun fb => [Tok.ident fb.ident])))

/-- One syntactic annotation (`syn::Attribute`): its path (only single-segment
paths are compared by `path().is_ident`, so a string), the raw argument
tokens, and its span. -/
structure Attr where
  path : String
  args : String
  span : Span
deriving DecidableEq, Repr

/-- The duplicate-attribute message of `NsAttr::from_attrs_opt`. -/
def alreadyConfiguredMsg (ns : String) : String :=
  "Attribute #[" ++ ns ++ "] Is Already Configured"

/-- The missing-attribute message of `NsAttr::from_attrs`. -/
def isRequiredMsg (ns : String) : String :=
  "Attribute #[" ++ ns ++ "] Is Required"

/-- Loop of `NsAttr::from_attrs_opt` (src/hizli-core/src/ns_attr.rs): `res`
is the mutable accumulator; non-matching attributes are skipped; a match when
`res` is already set fails with the duplicate diagnostic at that occurrence;
otherwise the attribute arguments are parsed on the spot (`attr.parse_args()?`,
modelled by the `parseArgs` function of the implementing type) and stored. -/
def NsAttr.fromAttrsOptAux {α : Type} (parseArgs : Attr → Except Error α)
    (ns : String) : List Attr → Option α → Except Error (Option α)
  | [], res => .ok res
  | attr :: rest, res =>
    if attr.path ≠ ns then NsAttr.fromAttrsOptAux parseArgs ns rest res
    else if res.isSome then .error ⟨attr.span, alreadyConfiguredMsg ns⟩
    else
      match parseArgs attr with
      | .error e => .error e
      | .ok v => NsAttr.fromAttrsOptAux parseArgs ns rest (some v)

/-- Optional namespaced-attribute lookup (`NsAttr::from_attrs_opt`). -/
def NsAttr.from_attrs_opt {α : Type} (parseArgs : Attr → Except Error α)
    (ns : String) (attrs : List Attr) : Except Error (Option α) :=
  NsAttr.fromAttrsOptAux parseArgs ns attrs none

/-- Required namespaced-attribute lookup (`NsAttr::from_attrs`): like the
optional lookup, but absence fails at the caller-supplied span. -/
def NsAttr.from_attrs {α : Type} (parseArgs : Attr → Except Error α)
    (ns : String) (attrs : List Attr) (span : Span) : Except Error α :=
  match NsAttr.from_attrs_opt parseArgs ns attrs with
  | .error e => .error e
  | .ok (some v) => .ok v
  | .ok none => .error ⟨span, isRequiredMsg ns⟩

/-- Numeric value of a decimal digit character (left inverse of
`Nat.digitChar` on digits), used to show that distinct positional indices get
distinct synthetic binding names. -/
def digitVal (c : Char) : Nat := c.toNat - 48

/-- Value of a decimal digit string, most significant digit first. -/
def digitsVal : List Char → Nat
  | [] => 0
  | c :: cs => digitVal c * 10 ^ cs.length + digitsVal cs

/-- A concrete argument parser (an instance of the `Parse` obligation of the
`NsAttr` trait): accepts exactly the argument text "ok". -/
def parse0 : Attr → Except Error Nat :=
  fun a => if a.args = "ok" then .ok 1 else .error ⟨a.span, "bad args"⟩

/-- Tokens of the path `::core::result::Result::Ok`. -/
def okPathToks : TokenStream :=
  [Tok.punct "::", Tok.ident "core", Tok.punct "::", Tok.ident "result",
   Tok.punct "::", Tok.ident "Result", Tok.punct "::", Tok.ident "Ok"]

/-- Tokens of the path `::core::result::Result::Err`. -/
def errPathToks : TokenStream :=
  [Tok.punct "::", Tok.ident "core", Tok.punct "::", Tok.ident "result",
   Tok.punct "::", Tok.ident "Result", Tok.punct "::", Tok.ident "Err"]

/-- Tokens of the fallback position `::proc_macro2::Span::call_site()`. -/
def callSiteToks : TokenStream :=
  [Tok.punct "::", Tok.ident "proc_macro2", Tok.punct "::", Tok.ident "Span",
   Tok.punct "::", Tok.ident "call_site"] ++ Tok.grp .paren []

/-- Per-field initializer of the Parse generator
(src/hizli-macros/src/parse/product.rs, `init`): `#id: input.parse()?` for a
named field, bare `input.parse()?` for an unnamed one. -/
def Parse.init (field : Field) : TokenStream :=
  match field.ident with
  | some id =>
    [Tok.ident id, Tok.punct ":", Tok.ident "input", Tok.punct ".",
     Tok.ident "parse"] ++ Tok.grp .paren [] ++ [Tok.punct "?"]
  | none =>
    [Tok.ident "input", Tok.punct ".", Tok.ident "parse"] ++ Tok.grp .paren []
      ++ [Tok.punct "?"]

/-- Struct case of the Parse generator
(src/hizli-macros/src/parse/product.rs, `product`):
`::core::result::Result::Ok(Self #init)` with the comma-joined field
initializers wrapped per layout. -/
def Parse.product (s : DataStruct) : TokenStream :=
  okPathToks ++
    Tok.grp .paren
      (Tok.ident "Self" ::
        (FieldType.new s.fields).wrap (sepComma (s.fields.toList.map Parse.init)))

/-- Construction expression of one enum branch: `Self::#ident #init`. -/
def Parse.constructToks (v : Variant) : TokenStream :=
  Tok.ident "Self" :: Tok.punct "::" :: Tok.ident v.ident ::
    (FieldType.new v.fields).wrap (sepComma (v.fields.toList.map Parse.init))

/-- Tokens of one lookahead branch:
`if input.peek(#ty) { return ::core::result::Result::Ok(Self::#ident #init); }`. -/
def Parse.branchToks (t : Ty) (construct : TokenStream) : TokenStream :=
  [Tok.ident "if", Tok.ident "input", Tok.punct ".", Tok.ident "peek"] ++
    Tok.grp .paren [Tok.ty t] ++
    Tok.grp .brace
      (Tok.ident "return" :: okPathToks ++ Tok.grp .paren construct ++ [Tok.punct ";"])

/-- One variant branch of the Parse generator
(src/hizli-macros/src/parse/sum.rs, `branch`): a variant with no field to
peek at is rejected at its name; otherwise the lookahead branch peeking the
first field type is emitted. -/
def Parse.branch (v : Variant) : Except Error TokenStream :=
  match v.fields.toList.head? with
  | none => .error ⟨v.identSpan, "#[derive(Parse)] Requires At Least One Field"⟩
  | some first => .ok (Parse.branchToks first.ty (Parse.constructToks v))

/-- The no-variant-matched message
(src/hizli-macros/src/parse/sum_expected_one_of.rs, `sum_expected_one_of`):
a fold over the first fields of the variants that have one, starting the
buffer on the first iteration and comma-separating afterwards. -/
def Parse.sum_expected_one_of (e : DataEnum) (id : String) : String :=
  (e.variants.filterMap (fun v => v.fields.toList.head?)).foldl
    (fun buf field =>
      if buf = "" then
        "Error Parsing: " ++ id ++ ", Expected One Of: " ++ field.ty.tokens
      else buf ++ ", " ++ field.ty.tokens)
    ""

/-- Tokens of the fallback failure of the generated enum parser:
`::core::result::Result::Err(::syn::Error::new(input.span(), #msg))`. -/
def Parse.errToks (msg : String) : TokenStream :=
  errPathToks ++
    Tok.grp .paren
      ([Tok.punct "::", Tok.ident "syn", Tok.punct "::", Tok.ident "Error",
        Tok.punct "::", Tok.ident "new"] ++
        Tok.grp .paren
          ([Tok.ident "input", Tok.punct ".", Tok.ident "span"] ++
            Tok.grp .paren [] ++ [Tok.punct ",", Tok.lit msg]))

/-- Short-circuiting collection of the branch results
(`.collect::<Result<Vec<_>>>()`): the first error wins. -/
def collectResults {α : Type} : List (Except Error α) → Except Error (List α)
  | [] => .ok []
  | .error e :: _ => .error e
  | .ok a :: rest =>
    match collectResults rest with
    | .error e => .error e
    | .ok l => .ok (a :: l)

/-- Enum case of the Parse generator (src/hizli-macros/src/parse/sum.rs,
`sum`): an empty enum is rejected at the `enum` keyword; otherwise the
variant branches are emitted in declaration order followed by the fallback
failure carrying the expected-one-of message. -/
def Parse.sum (e : DataEnum) (id : String) : Except Error TokenStream :=
  if e.variants = [] then
    .error ⟨e.enumTokenSpan,
      "Cannot #[derive(Parse)] On An Empty Enum. It\x27s Not Constructable At Runtime"⟩
  else
    let msg := Parse.sum_expected_one_of e id
    match collectResults (e.variants.map Parse.branch) with
    | .error err => .error err
    | .ok branches => .ok (branches.flatten ++ Parse.errToks msg)

/-- One match arm of the Spanable generator
(src/hizli-macros/src/spanable/sum.rs, `arm`): `Self::#pat => #expr`, where
the pattern comes from `variant_pattern()` and the expression is the span of
the first field binding, or the call-site fallback when there is none. -/
def Spanable.arm (variant : Variant) : TokenStream :=
  let binding := VariantBinding.new variant
  let expr : TokenStream :=
    match binding.field_bindings.head? with
    | some fb =>
      [Tok.ident fb.ident, Tok.punct ".", Tok.ident "span"] ++ Tok.grp .paren []
    | none => callSiteToks
  Tok.ident "Self" :: Tok.punct "::" :: binding.variant_pattern ++
    Tok.punct "=>" :: expr

/-- Enum case of the Spanable generator
(src/hizli-macros/src/spanable/sum.rs, `sum`): `match *self {}` for a
zero-variant enum, otherwise `match self { arm, … }` with one arm per
variant in declaration order. -/
def Spanable.sum (e : DataEnum) : TokenStream :=
  if e.variants = [] then
    Tok.ident "match" :: Tok.punct "*" :: Tok.ident "self" :: Tok.grp .brace []
  else
    Tok.ident "match" :: Tok.ident "self" ::
      Tok.grp .brace (sepComma (e.variants.map Spanable.arm))

/-- Tokens of `self.#member`. -/
def selfMemberToks (m : Member) : TokenStream :=
  match m with
  | .named n => [Tok.ident "self", Tok.punct ".", Tok.ident n]
  | .unnamed i => [Tok.ident "self", Tok.punct ".", Tok.lit (Nat.repr i)]

/-- Struct case of the Spanable generator
(src/hizli-macros/src/spanable/product.rs, `product`): delegate to the first
member via `::hizli::Spanable::spanable(self.#member)`, or return the
call-site fallback when the struct has no fields. -/
def Spanable.product (s : DataStruct) : TokenStream :=
  match s.fields.members.head? with
  | some member =>
    [Tok.punct "::", Tok.ident "hizli", Tok.punct "::", Tok.ident "Spanable",
     Tok.punct "::", Tok.ident "spanable"] ++ Tok.grp .paren (selfMemberToks member)
  | none => callSiteToks

/-- Generic parameters of a derive input, already split for an `impl` block
(`generics.split_for_impl()` is a `syn` library operation; its three outputs
are modelled directly as token streams). -/
structure Generics where
  implGen : TokenStream
  typeGen : TokenStream
  whereCl : TokenStream
deriving DecidableEq, Repr

/-- A derive input (`syn::DeriveInput`): type name, generics, shape. -/
structure DeriveInput where
  ident : String
  generics : Generics
  data : Data
deriving DecidableEq, Repr

/-- Tokens of the outer attribute `#[automatically_derived]`. -/
def autoDerivedToks : TokenStream :=
  Tok.punct "#" :: Tok.grp .bracket [Tok.ident "automatically_derived"]

/-- Entry point of the Parse derivation
(src/hizli-macros/src/parse/handler.rs, `handler`): narrow the shape, pick
the struct or enum generator, and wrap the fragment into
`impl #impl_gen ::syn::parse::Parse for #ident #type_gen #where_cl
\x7b fn parse(input: ::syn::parse::ParseStream) -> ::syn::Result<Self>
\x7b #block \x7d \x7d`. -/
def Parse.handler (input : DeriveInput) : Except Error TokenStream :=
  match StructEnumOnly.try_new input.data "Parse" with
  | .error e => .error e
  | .ok gated =>
    match
      (match gated with
       | .struct s => Except.ok (Parse.product s)
       | .enum e => Parse.sum e input.ident) with
    | .error e => .error e
    | .ok block =>
      .ok (autoDerivedToks ++
        Tok.ident "impl" :: input.generics.implGen ++
        [Tok.punct "::", Tok.ident "syn", Tok.punct "::", Tok.ident "parse",
         Tok.punct "::", Tok.ident "Parse", Tok.ident "for",
         Tok.ident input.ident] ++
        input.generics.typeGen ++ input.generics.whereCl ++
        Tok.grp .brace
          ([Tok.ident "fn", Tok.ident "parse"] ++
            Tok.grp .paren
              [Tok.ident "input", Tok.punct ":", Tok.punct "::",
               Tok.ident "syn", Tok.punct "::", Tok.ident "parse",
               Tok.punct "::", Tok.ident "ParseStream"] ++
            [Tok.punct "->", Tok.punct "::", Tok.ident "syn", Tok.punct "::",
             Tok.ident "Result", Tok.punct "<", Tok.ident "Self",
             Tok.punct ">"] ++
            Tok.grp .brace block))

/-- Entry point of the Spanable derivation
(src/hizli-macros/src/spanable/handler.rs, `handler`): narrow the shape, pick
the struct or enum generator, and wrap the fragment into
`impl #impl_gen #ident #type_gen #where_cl
\x7b fn spanable(&self) -> ::proc_macro2::Span \x7b #block \x7d \x7d` —
note that no trait path occurs between `impl` and the type name. -/
def Spanable.handler (input : DeriveInput) : Except Error TokenStream :=
  match StructEnumOnly.try_new input.data "Spanable" with
  | .error e => .error e
  | .ok gated =>
    let block :=
      match gated with
      | .enum e => Spanable.sum e
      | .struct s => Spanable.product s
    .ok (autoDerivedToks ++
      Tok.ident "impl" :: input.generics.implGen ++
      [Tok.ident input.ident] ++
      input.generics.typeGen ++ input.generics.whereCl ++
      Tok.grp .brace
        ([Tok.ident "fn", Tok.ident "spanable"] ++
          Tok.grp .paren [Tok.punct "&", Tok.ident "self"] ++
          [Tok.punct "->", Tok.punct "::", Tok.ident "proc_macro2",
           Tok.punct "::", Tok.ident "Span"] ++
          Tok.grp .brace block))

/-- Interpretation of the control flow of the emitted enum-parsing fragment:
a chain of `if input.peek(T) \x7b return Ok(construction) \x7d` statements
followed by `Err(msg)`, given which peeks succeed.  Rust evaluates the
statements in order and the first successful peek returns its construction;
when no peek succeeds the fallback failure is reached. -/
def chainSem {α : Type} (p : Ty → Bool) : List (Ty × α) → String → Except String α
  | [], msg => .error msg
  | (t, c) :: rest, msg => if p t then .ok c else chainSem p rest msg

/-- Specification-side: the type of a variant's first field (placeholder for
a fieldless variant, which the Parse generator rejects beforehand). -/
def specFirstTy (v : Variant) : Ty :=
  match v.fields.toList with
  | [] => ⟨""⟩
  | f :: _ => f.ty

/-- Specification-side: the lookahead chain of an enum — one (peeked type,
construction) pair per variant, in declaration order. -/
def specChain (e : DataEnum) : List (Ty × TokenStream) :=
  e.variants.map (fun v => (specFirstTy v, Parse.constructToks v))

/-- Tail of a comma-separated type list: ", T2, T3, …". -/
def tyCommaTail : List Ty → String
  | [] => ""
  | t :: rest => ", " ++ t.tokens ++ tyCommaTail rest

/-- Comma-separated type list: "T1, T2, …". -/
def tyCommaSep : List Ty → String
  | [] => ""
  | t :: rest => t.tokens ++ tyCommaTail rest

/-- Specification-side: the failure message demanded by the spec — "Error
Parsing: <TypeName>, Expected One Of: T1, T2, …" listing the first-field type
of every variant in declaration order. -/
def specExpectedMsg (e : DataEnum) (id : String) : String :=
  "Error Parsing: " ++ id ++ ", Expected One Of: " ++
    tyCommaSep (e.variants.map specFirstTy)

/-- Behaviour of the `from_attrs_opt` loop once an occurrence has already
been stored: the next matching attribute fails with the duplicate
diagnostic at its own span. -/
theorem fromAttrsOptAux_some_eq {α : Type} (parse : Attr → Except Error α)
    (ns : String) (v : α) (attrs : List Attr) :
    NsAttr.fromAttrsOptAux parse ns attrs (some v) =
      match attrs.filter (fun a => a.path == ns) with
      | [] => .ok (some v)
      | b :: _ => .error ⟨b.span, alreadyConfiguredMsg ns⟩ := by
  induction attrs with
  | nil => rfl
  | cons attr rest ih =>
    by_cases h : attr.path = ns
    · simp [NsAttr.fromAttrsOptAux, h]
    · simp [NsAttr.fromAttrsOptAux, h, ih]

/-- Characterization of the `from_attrs_opt` loop on an empty accumulator, in
terms of the sublist of attributes matching the namespace: no match succeeds
with `none`; a single match parses its arguments; two or more matches parse
the first occurrence and then fail with the duplicate diagnostic at the
second occurrence. -/
theorem fromAttrsOptAux_none_eq {α : Type} (parse : Attr → Except Error α)
    (ns : String) (attrs : List Attr) :
    NsAttr.fromAttrsOptAux parse ns attrs none =
      match attrs.filter (fun a => a.path == ns) with
      | [] => .ok none
      | [a] => (parse a).map some
      | a :: b :: _ =>
        (parse a).bind fun _ => .error ⟨b.span, alreadyConfiguredMsg ns⟩ := by
  induction attrs with
  | nil => rfl
  | cons attr rest ih =>
    by_cases h : attr.path = ns
    · cases hp : parse attr with
      | error e =>
        cases hfr : rest.filter (fun a => a.path == ns) with
        | nil => simp [NsAttr.fromAttrsOptAux, h, hp, hfr, Except.map]
        | cons b fr2 => simp [NsAttr.fromAttrsOptAux, h, hp, hfr, Except.bind]
      | ok v =>
        cases hfr : rest.filter (fun a => a.path == ns) with
        | nil =>
          simp [NsAttr.fromAttrsOptAux, h, hp, hfr, Except.map,
            fromAttrsOptAux_some_eq parse ns v rest]
        | cons b fr2 =>
          simp [NsAttr.fromAttrsOptAux, h, hp, hfr, Except.bind,
            fromAttrsOptAux_some_eq parse ns v rest]
    · simp [NsAttr.fromAttrsOptAux, h, ih]

/-- Claim C5: each Shape Gate narrowing operation (struct-or-enum-only,
struct-only, enum-only) accepts exactly its allowed shapes and returns the
payload unchanged; on any disallowed shape it fails with a single diagnostic
attached at the offending shape introducing keyword whose message names the
requested derivation and the actual offending shape in exactly the format
"Cannot #[derive(<Name>)] On Union" (respectively "...On Struct",
"...On Enum"). -/
theorem shape_gate_dispatch :
    (∀ (s : DataStruct) (name : String),
      StructEnumOnly.try_new (.struct s) name = .ok (.struct s))
    ∧ (∀ (e : DataEnum) (name : String),
      StructEnumOnly.try_new (.enum e) name = .ok (.enum e))
    ∧ (∀ (u : DataUnion) (name : String),
      StructEnumOnly.try_new (.union u) name =
        .error ⟨u.unionTokenSpan, "Cannot #[derive(" ++ name ++ ")] On Union"⟩)
    ∧ (∀ (s : DataStruct) (name : String),
      StructOnly.try_new (.struct s) name = .ok s)
    ∧ (∀ (e : DataEnum) (name : String),
      StructOnly.try_new (.enum e) name =
        .error ⟨e.enumTokenSpan, "Cannot #[derive(" ++ name ++ ")] On Enum"⟩)
    ∧ (∀ (u : DataUnion) (name : String),
      StructOnly.try_new (.union u) name =
        .error ⟨u.unionTokenSpan, "Cannot #[derive(" ++ name ++ ")] On Union"⟩)
    ∧ (∀ (e : DataEnum) (name : String),
      EnumOnly.try_new (.enum e) name = .ok e)
    ∧ (∀ (s : DataStruct) (name : String),
      EnumOnly.try_new (.struct s) name =
        .error ⟨s.structTokenSpan, "Cannot #[derive(" ++ name ++ ")] On Struct"⟩)
    ∧ (∀ (u : DataUnion) (name : String),
      EnumOnly.try_new (.union u) name =
        .error ⟨u.unionTokenSpan, "Cannot #[derive(" ++ name ++ ")] On Union"⟩) :=
  ⟨fun _ _ => rfl, fun _ _ => rfl, fun _ _ => rfl, fun _ _ => rfl,
   fun _ _ => rfl, fun _ _ => rfl, fun _ _ => rfl, fun _ _ => rfl,
   fun _ _ => rfl⟩

/-- Claim C7: `classify` (`FieldType::new`) is a pure total function of the
field collection constructor shape, and `wrap` is total with exactly three
outcomes: the Unit layout returns the inner fragment unchanged, the Named
layout encloses it in brace delimiters, the Unnamed layout in parenthesis
delimiters; the layout type has no other inhabitant. -/
theorem classify_wrap_total :
    (FieldType.new .unit = .Unit)
    ∧ (∀ fs : List Field, FieldType.new (.named fs) = .Named)
    ∧ (∀ fs : List Field, FieldType.new (.unnamed fs) = .Unnamed)
    ∧ (∀ inner : TokenStream, FieldType.Unit.wrap inner = inner)
    ∧ (∀ inner : TokenStream,
      FieldType.Named.wrap inner = Tok.bopen .brace :: inner ++ [Tok.bclose .brace])
    ∧ (∀ inner : TokenStream,
      FieldType.Unnamed.wrap inner = Tok.bopen .paren :: inner ++ [Tok.bclose .paren])
    ∧ (∀ l : FieldType, l = .Unit ∨ l = .Named ∨ l = .Unnamed) :=
  ⟨rfl, fun _ => rfl, fun _ => rfl, fun _ => rfl, fun _ => rfl, fun _ => rfl,
   fun l => by cases l <;> simp⟩

/-- Claim C9: `FieldBinding::new` never fails for any field position: a named
field reuses its identifier, an unnamed field at zero-based position `idx`
stores the positional member index `idx` whenever `idx` fits in 32 bits, and
for `idx` greater than `u32::MAX` the conversion silently falls back to
member index `0` while the binding name still carries the full index as
`binding_{idx}`, so the binding name and the member index can disagree (shown
at `idx = 2^32`). -/
theorem field_binding_index_truncation :
    (∀ (n : String) (sp : Span) (t : Ty),
      FieldBinding.new 0 ⟨some n, sp, t⟩ = ⟨n, .named n⟩)
    ∧ (∀ (idx : Nat) (n : String) (sp : Span) (t : Ty),
      FieldBinding.new idx ⟨some n, sp, t⟩ = ⟨n, .named n⟩)
    ∧ (∀ (idx : Nat) (sp : Span) (t : Ty),
      FieldBinding.new idx ⟨none, sp, t⟩ =
        ⟨"binding_" ++ Nat.repr idx,
         .unnamed (if idx < 2 ^ 32 then idx else 0)⟩)
    ∧ (FieldBinding.new (2 ^ 32) ⟨none, 0, ⟨"T"⟩⟩).ident = "binding_4294967296"
    ∧ (FieldBinding.new (2 ^ 32) ⟨none, 0, ⟨"T"⟩⟩).member = .unnamed 0
    ∧ Member.unnamed 0 ≠ Member.unnamed (2 ^ 32) :=
  ⟨fun _ _ _ => rfl, fun _ _ _ _ => rfl, fun _ _ _ => rfl, by decide, by decide,
   by decide⟩

/-- Claim C8 counterexample: with an argument parser accepting exactly "ok",
a list whose two matching attributes start with unparseable arguments returns
the argument-parse error of the first occurrence (span 5), not the
"Already Configured" diagnostic at the second occurrence (span 7) that the
claim asserts for every list with two or more matches; likewise a single
matching attribute with unparseable arguments fails instead of succeeding
with a parsed value. -/
theorem ns_attr_counterexample :
    (NsAttr.from_attrs_opt parse0 "ns" [⟨"ns", "bad", 5⟩, ⟨"ns", "ok", 7⟩] =
      .error ⟨5, "bad args"⟩)
    ∧ (NsAttr.from_attrs_opt parse0 "ns" [⟨"ns", "bad", 5⟩, ⟨"ns", "ok", 7⟩] ≠
      .error ⟨7, alreadyConfiguredMsg "ns"⟩)
    ∧ (NsAttr.from_attrs_opt parse0 "ns" [⟨"ns", "bad", 5⟩] =
      .error ⟨5, "bad args"⟩)
    ∧ ((NsAttr.from_attrs_opt parse0 "ns" [⟨"ns", "bad", 5⟩]).isOk = false) := by
  refine ⟨by decide, by decide, by decide, by decide⟩

/-- Claim C8 (amended): for every attribute list, find-optional
(`from_attrs_opt`) succeeds with "absent" when zero attributes match the
namespace; when exactly one matches it succeeds with the parsed value
provided the arguments parse, and otherwise returns that argument-parse
error; when two or more match and the first matching occurrence's arguments
parse successfully it fails with "Attribute #[<ns>] Is Already Configured" at
the second matching occurrence's span; find-required (`from_attrs`) behaves
identically except that "absent" becomes the failure
"Attribute #[<ns>] Is Required" at the caller-supplied fallback span; an
attribute of a different namespace never affects the result. -/
theorem ns_attr_find_behavior {α : Type} (parse : Attr → Except Error α)
    (ns : String) (attrs : List Attr) (sp : Span) :
    (attrs.filter (fun a => a.path == ns) = [] →
      NsAttr.from_attrs_opt parse ns attrs = .ok none
      ∧ NsAttr.from_attrs parse ns attrs sp = .error ⟨sp, isRequiredMsg ns⟩)
    ∧ (∀ a : Attr, attrs.filter (fun a => a.path == ns) = [a] →
      NsAttr.from_attrs_opt parse ns attrs = (parse a).map some
      ∧ NsAttr.from_attrs parse ns attrs sp = parse a)
    ∧ (∀ (a b : Attr) (rest : List Attr),
      attrs.filter (fun a => a.path == ns) = a :: b :: rest →
      ∀ v : α, parse a = .ok v →
      NsAttr.from_attrs_opt parse ns attrs =
        .error ⟨b.span, alreadyConfiguredMsg ns⟩
      ∧ NsAttr.from_attrs parse ns attrs sp =
        .error ⟨b.span, alreadyConfiguredMsg ns⟩)
    ∧ (∀ extra : Attr, extra.path ≠ ns →
      NsAttr.from_attrs_opt parse ns (extra :: attrs) =
        NsAttr.from_attrs_opt parse ns attrs) := by
  refine ⟨?_, ?_, ?_, ?_⟩
  · intro hf
    have h0 : NsAttr.from_attrs_opt parse ns attrs = .ok none := by
      have hc := fromAttrsOptAux_none_eq parse ns attrs
      rw [hf] at hc
      exact hc
    exact ⟨h0, by simp [NsAttr.from_attrs, h0]⟩
  · intro a hf
    have h0 : NsAttr.from_attrs_opt parse ns attrs = (parse a).map some := by
      have hc := fromAttrsOptAux_none_eq parse ns attrs
      rw [hf] at hc
      exact hc
    refine ⟨h0, ?_⟩
    cases hp : parse a with
    | error e => simp [NsAttr.from_attrs, h0, hp, Except.map]
    | ok v => simp [NsAttr.from_attrs, h0, hp, Except.map]
  · intro a b rest hf v hp
    have h0 : NsAttr.from_attrs_opt parse ns attrs =
        (parse a).bind fun _ => .error ⟨b.span, alreadyConfiguredMsg ns⟩ := by
      have hc := fromAttrsOptAux_none_eq parse ns attrs
      rw [hf] at hc
      exact hc
    rw [hp] at h0
    have h1 : NsAttr.from_attrs_opt parse ns attrs =
        .error ⟨b.span, alreadyConfiguredMsg ns⟩ := by
      simpa [Except.bind] using h0
    exact ⟨h1, by simp [NsAttr.from_attrs, h1]⟩
  · intro extra hextra
    simp [NsAttr.from_attrs_opt, NsAttr.fromAttrsOptAux, hextra]

/-- Claim C8 witness: a list with one non-matching and one matching,
parseable attribute makes find-optional succeed with the parsed value. -/
theorem ns_attr_find_behavior_witness :
    NsAttr.from_attrs_opt parse0 "ns" [⟨"other", "x", 1⟩, ⟨"ns", "ok", 5⟩] =
      .ok (some 1) :=
  (((ns_attr_find_behavior parse0 "ns" [⟨"other", "x", 1⟩, ⟨"ns", "ok", 5⟩]
    0).2.1 ⟨"ns", "ok", 5⟩ (by decide)).1).trans (by decide)

/-- Claim C10: `from_attrs_opt` parses a matching attribute's arguments when
it is first encountered, before scanning the rest of the list for
duplicates: for every attribute list with two or more attributes matching
the namespace, if parsing the first matching occurrence's arguments fails
the returned error is that argument-parse error, and only when the first
occurrence's arguments parse successfully is the
"Attribute #[<ns>] Is Already Configured" duplicate error (at the second
occurrence's span) produced. -/
theorem from_attrs_opt_parse_before_duplicate {α : Type}
    (parse : Attr → Except Error α) (ns : String) (attrs : List Attr)
    (a b : Attr) (rest : List Attr)
    (hfilter : attrs.filter (fun x => x.path == ns) = a :: b :: rest) :
    (∀ e : Error, parse a = .error e →
      NsAttr.from_attrs_opt parse ns attrs = .error e)
    ∧ (∀ v : α, parse a = .ok v →
      NsAttr.from_attrs_opt parse ns attrs =
        .error ⟨b.span, alreadyConfiguredMsg ns⟩) := by
  have h0 : NsAttr.from_attrs_opt parse ns attrs =
      (parse a).bind fun _ => .error ⟨b.span, alreadyConfiguredMsg ns⟩ := by
    have hc := fromAttrsOptAux_none_eq parse ns attrs
    rw [hfilter] at hc
    exact hc
  constructor
  · intro e hp
    rw [hp] at h0
    simpa [Except.bind] using h0
  · intro v hp
    rw [hp] at h0
    simpa [Except.bind] using h0

/-- Claim C10 witness: with the "ok"-only argument parser, a first matching
occurrence that parses successfully makes a duplicated attribute fail with
the duplicate diagnostic at the second occurrence's span. -/
theorem from_attrs_opt_parse_before_duplicate_witness :
    NsAttr.from_attrs_opt parse0 "ns" [⟨"ns", "ok", 5⟩, ⟨"ns", "x", 7⟩] =
      .error ⟨7, alreadyConfiguredMsg "ns"⟩ :=
  (from_attrs_opt_parse_before_duplicate parse0 "ns"
    [⟨"ns", "ok", 5⟩, ⟨"ns", "x", 7⟩] ⟨"ns", "ok", 5⟩ ⟨"ns", "x", 7⟩ []
    (by decide)).2 1 (by decide)

/-- Digit characters decode back to their value. -/
theorem digitVal_digitChar {d : Nat} (h : d < 10) :
    digitVal (Nat.digitChar d) = d := by
  interval_cases d <;> rfl

/-- Value of the digit list produced by `Nat.toDigitsCore`, given enough
fuel: the accumulated digits are appended behind the digits of `n`. -/
theorem digitsVal_toDigitsCore :
    ∀ (fuel n : Nat) (ds : List Char), n < 10 ^ fuel →
      digitsVal (Nat.toDigitsCore 10 fuel n ds) =
        n * 10 ^ ds.length + digitsVal ds := by
  intro fuel
  induction fuel with
  | zero =>
    intro n ds h
    have hn : n = 0 := by simpa using h
    subst hn
    simp [Nat.toDigitsCore]
  | succ fuel ih =>
    intro n ds h
    by_cases h0 : n / 10 = 0
    · have hn : n < 10 := by omega
      rw [show Nat.toDigitsCore 10 (fuel + 1) n ds =
          Nat.digitChar (n % 10) :: ds by simp [Nat.toDigitsCore, h0]]
      simp only [digitsVal]
      rw [digitVal_digitChar (Nat.mod_lt n (by norm_num))]
      rw [Nat.mod_eq_of_lt hn]
    · have hlt : n / 10 < 10 ^ fuel := by
        have hmul : n < 10 ^ fuel * 10 := by
          rw [← pow_succ]
          exact h
        exact (Nat.div_lt_iff_lt_mul (by norm_num)).mpr hmul
      rw [show Nat.toDigitsCore 10 (fuel + 1) n ds =
          Nat.toDigitsCore 10 fuel (n / 10) (Nat.digitChar (n % 10) :: ds) by
        simp [Nat.toDigitsCore, h0]]
      rw [ih (n / 10) (Nat.digitChar (n % 10) :: ds) hlt]
      simp only [List.length_cons, digitsVal]
      rw [digitVal_digitChar (Nat.mod_lt n (by norm_num))]
      have hdm : 10 * (n / 10) + n % 10 = n := Nat.div_add_mod n 10
      have key : n / 10 * 10 ^ (ds.length + 1) + n % 10 * 10 ^ ds.length =
          n * 10 ^ ds.length := by
        rw [pow_succ]
        calc n / 10 * (10 ^ ds.length * 10) + n % 10 * 10 ^ ds.length
            = (10 * (n / 10) + n % 10) * 10 ^ ds.length := by ring
          _ = n * 10 ^ ds.length := by rw [hdm]
      rw [← Nat.add_assoc, key]

/-- The decimal rendering of a natural number decodes back to it. -/
theorem digitsVal_toDigits (n : Nat) : digitsVal (Nat.toDigits 10 n) = n := by
  have h : n < 10 ^ (n + 1) := by
    calc n < 10 ^ n := Nat.lt_pow_self (by norm_num) n
      _ ≤ 10 ^ (n + 1) := Nat.pow_le_pow_right (by norm_num) (Nat.le_succ n)
  simpa [digitsVal] using digitsVal_toDigitsCore (n + 1) n [] h

/-- Decimal rendering is injective. -/
theorem repr_injective : Function.Injective Nat.repr := by
  intro m n h
  have hd : Nat.toDigits 10 m = Nat.toDigits 10 n := by
    have hdata := congrArg String.data h
    simpa [Nat.repr, List.asString] using hdata
  have hm := digitsVal_toDigits m
  rw [hd, digitsVal_toDigits n] at hm
  exact hm.symm

/-- Appending behind a fixed string is injective. -/
theorem string_append_left_cancel {s a b : String} (h : s ++ a = s ++ b) :
    a = b := by
  apply String.ext
  have hdata := congrArg String.data h
  simp only [String.data_append] at hdata
  exact List.append_cancel_left hdata

/-- The synthetic binding names of distinct positions are distinct. -/
theorem binding_name_injective :
    Function.Injective (fun k : Nat => "binding_" ++ Nat.repr k) := by
  intro i j h
  exact repr_injective (string_append_left_cancel h)

/-- Index-shifted element lookup in the `from_fields` loop. -/
theorem fromFieldsAux_getElem? (l : List Field) :
    ∀ i j : Nat, (FieldBinding.fromFieldsAux i l)[j]? =
      (l[j]?).map (fun f => FieldBinding.new (i + j) f) := by
  induction l with
  | nil => intro i j; simp [FieldBinding.fromFieldsAux]
  | cons f fs ih =>
    intro i j
    cases j with
    | zero => simp [FieldBinding.fromFieldsAux]
    | succ j =>
      simp only [FieldBinding.fromFieldsAux, List.getElem?_cons_succ, ih (i + 1) j]
      rw [show i + 1 + j = i + (j + 1) by omega]

/-- The `from_fields` loop produces one binding per field. -/
theorem fromFieldsAux_length (l : List Field) :
    ∀ i : Nat, (FieldBinding.fromFieldsAux i l).length = l.length := by
  induction l with
  | nil => intro i; simp [FieldBinding.fromFieldsAux]
  | cons f fs ih => intro i; simp [FieldBinding.fromFieldsAux, ih (i + 1)]

/-- On an all-positional field list the binding names are the synthetic names
of the successive indices. -/
theorem fromFieldsAux_idents_unnamed (l : List Field)
    (hun : ∀ f ∈ l, f.ident = none) :
    ∀ i : Nat, (FieldBinding.fromFieldsAux i l).map FieldBinding.ident =
      (List.range' i l.length).map (fun k => "binding_" ++ Nat.repr k) := by
  induction l with
  | nil => intro i; simp [FieldBinding.fromFieldsAux]
  | cons f fs ih =>
    intro i
    have hf : f.ident = none := hun f (by simp)
    have ihr := ih (fun g hg => hun g (by simp [hg])) (i + 1)
    simp [FieldBinding.fromFieldsAux, FieldBinding.new, hf, List.range', ihr]

/-- On an all-named field list the binding names are the declared names. -/
theorem fromFieldsAux_idents_named (l : List Field)
    (hn : ∀ f ∈ l, (f.ident).isSome) :
    ∀ i : Nat, (FieldBinding.fromFieldsAux i l).map FieldBinding.ident =
      l.filterMap Field.ident := by
  induction l with
  | nil => intro i; simp [FieldBinding.fromFieldsAux]
  | cons f fs ih =>
    intro i
    have hf := hn f (by simp)
    obtain ⟨n, hn0⟩ := Option.isSome_iff_exists.mp hf
    have ihr := ih (fun g hg => hn g (by simp [hg])) (i + 1)
    simp [FieldBinding.fromFieldsAux, FieldBinding.new, hn0, ihr]

/-- Claim C6 counterexample: `from_fields` copies declared names verbatim, so
a named collection with the duplicate declared name "a" (parseable source
text, rejected only later by the compiler) yields the duplicate binding names
["a", "a"]; and on an all-positional collection with `2^32 + 1` fields, the
binding at zero-based position `2^32` carries the by-position accessor `0`,
not `2^32` — refuting both the pairwise-distinct clause and the unconditional
by-position(i) clause of the claim. -/
theorem from_fields_counterexample :
    ((FieldBinding.from_fields
        (.named [⟨some "a", 0, ⟨"A"⟩⟩, ⟨some "a", 1, ⟨"A"⟩⟩])).map
      FieldBinding.ident = ["a", "a"])
    ∧ ¬ (["a", "a"] : List String).Nodup
    ∧ ((FieldBinding.from_fields
        (.unnamed (List.replicate (2 ^ 32 + 1) ⟨none, 0, ⟨"T"⟩⟩)))[2 ^ 32]?).map
        FieldBinding.member = some (Member.unnamed 0)
    ∧ some (Member.unnamed 0) ≠ some (Member.unnamed (2 ^ 32)) := by
  refine ⟨by decide, by decide, ?_, by decide⟩
  rw [show FieldBinding.from_fields
      (.unnamed (List.replicate (2 ^ 32 + 1) ⟨none, 0, ⟨"T"⟩⟩)) =
      FieldBinding.fromFieldsAux 0 (List.replicate (2 ^ 32 + 1) ⟨none, 0, ⟨"T"⟩⟩)
    from rfl]
  rw [fromFieldsAux_getElem? _ 0 (2 ^ 32)]
  rw [List.getElem?_replicate_of_lt (by norm_num)]
  norm_num [FieldBinding.new]

/-- Claim C6 (amended): `from_fields` produces exactly one binding per field,
preserving declaration order, with no failure mode: a field with a declared
name yields binding-name equal to that name and a by-name accessor; a field
without a name at zero-based position `i` yields binding-name exactly
`binding_{i}` and a by-position(i) accessor when `i` fits in 32 bits (and
by-position(0) otherwise); the binding names are pairwise distinct for every
all-positional collection, and for every all-named collection whose declared
names are pairwise distinct. -/
theorem from_fields_bindings (fields : Fields) :
    ((FieldBinding.from_fields fields).length = fields.toList.length)
    ∧ (∀ j : Nat, (FieldBinding.from_fields fields)[j]? =
        (fields.toList[j]?).map (fun f =>
          match f.ident with
          | some n => ⟨n, Member.named n⟩
          | none =>
            ⟨"binding_" ++ Nat.repr j,
             Member.unnamed (if j < 2 ^ 32 then j else 0)⟩))
    ∧ ((∀ f ∈ fields.toList, f.ident = none) →
        ((FieldBinding.from_fields fields).map FieldBinding.ident).Nodup)
    ∧ ((∀ f ∈ fields.toList, (f.ident).isSome) →
        (fields.toList.filterMap Field.ident).Nodup →
        ((FieldBinding.from_fields fields).map FieldBinding.ident).Nodup) := by
  refine ⟨fromFieldsAux_length _ 0, ?_, ?_, ?_⟩
  · intro j
    rw [show FieldBinding.from_fields fields =
        FieldBinding.fromFieldsAux 0 fields.toList from rfl]
    rw [fromFieldsAux_getElem? _ 0 j]
    rw [show (0 : Nat) + j = j by omega]
    rfl
  · intro hun
    rw [show FieldBinding.from_fields fields =
        FieldBinding.fromFieldsAux 0 fields.toList from rfl]
    rw [fromFieldsAux_idents_unnamed _ hun 0]
    exact List.Nodup.map binding_name_injective (List.nodup_range' 0 _ 1 (by simp))
  · intro hn hd
    rw [show FieldBinding.from_fields fields =
        FieldBinding.fromFieldsAux 0 fields.toList from rfl]
    rw [fromFieldsAux_idents_named _ hn 0]
    exact hd

/-- Claim C6 witness: a two-field tuple collection gets the distinct
synthetic binding names. -/
theorem from_fields_bindings_witness :
    ((FieldBinding.from_fields
        (.unnamed [⟨none, 0, ⟨"A"⟩⟩, ⟨none, 1, ⟨"B"⟩⟩])).map
      FieldBinding.ident).Nodup :=
  (from_fields_bindings (.unnamed [⟨none, 0, ⟨"A"⟩⟩, ⟨none, 1, ⟨"B"⟩⟩])).2.2.1
    (by decide)

/-- A variant with at least one field yields its lookahead branch. -/
theorem branch_ok (v : Variant) (hv : v.fields.toList ≠ []) :
    Parse.branch v =
      .ok (Parse.branchToks (specFirstTy v) (Parse.constructToks v)) := by
  cases hl : v.fields.toList with
  | nil => exact absurd hl hv
  | cons f fs => simp [Parse.branch, specFirstTy, hl]

/-- When every variant has a field, collecting the branches succeeds with the
branch tokens in declaration order. -/
theorem collect_branches_ok :
    ∀ vs : List Variant, (∀ v ∈ vs, v.fields.toList ≠ []) →
      collectResults (vs.map Parse.branch) =
        .ok (vs.map (fun v =>
          Parse.branchToks (specFirstTy v) (Parse.constructToks v))) := by
  intro vs
  induction vs with
  | nil => intro _; rfl
  | cons v rest ih =>
    intro h
    have hv := branch_ok v (h v (by simp))
    have hr := ih (fun w hw => h w (by simp [hw]))
    simp [collectResults, hv, hr]

/-- Collecting the branches short-circuits at the first fieldless variant in
declaration order, with the at-least-one-field diagnostic at its name. -/
theorem collect_branches_error :
    ∀ (vs : List Variant) (v0 : Variant),
      vs.find? (fun v => v.fields.toList.isEmpty) = some v0 →
      collectResults (vs.map Parse.branch) =
        .error ⟨v0.identSpan, "#[derive(Parse)] Requires At Least One Field"⟩ := by
  intro vs
  induction vs with
  | nil => intro v0 h; simp at h
  | cons v rest ih =>
    intro v0 h
    rw [List.find?_cons] at h
    by_cases he : v.fields.toList.isEmpty
    · simp only [he] at h
      have hv0 : v = v0 := by injection h
      subst hv0
      have hnil : v.fields.toList = [] := by simpa using he
      have hbe : Parse.branch v =
          .error ⟨v.identSpan, "#[derive(Parse)] Requires At Least One Field"⟩ := by
        simp [Parse.branch, hnil]
      simp [collectResults, hbe]
    · have he2 : v.fields.toList.isEmpty = false := by simpa using he
      simp only [he2] at h
      have hv : v.fields.toList ≠ [] := by
        intro hnil
        exact he (by simp [hnil])
      simp [collectResults, branch_ok v hv, ih v0 h]

/-- The fold of `sum_expected_one_of`, once the buffer is nonempty, appends
", T" for each remaining first field. -/
theorem expectedFoldAux (id : String) :
    ∀ (fs : List Field) (buf : String), buf ≠ "" →
      fs.foldl (fun buf field =>
        if buf = "" then
          "Error Parsing: " ++ id ++ ", Expected One Of: " ++ field.ty.tokens
        else buf ++ ", " ++ field.ty.tokens) buf
      = buf ++ tyCommaTail (fs.map Field.ty) := by
  intro fs
  induction fs with
  | nil => intro buf hb; simp [tyCommaTail]
  | cons f rest ih =>
    intro buf hb
    have hcomma : (", " : String).length = 2 := rfl
    have hb2 : buf ++ ", " ++ f.ty.tokens ≠ "" := by
      intro hc
      have hlen := congrArg String.length hc
      simp only [String.length_append] at hlen
      rw [hcomma] at hlen
      have hzero : ("" : String).length = 0 := rfl
      rw [hzero] at hlen
      omega
    rw [List.foldl_cons, if_neg hb, ih _ hb2]
    simp [tyCommaTail, String.append_assoc]

/-- Under the all-variants-have-a-field precondition, taking the first field
of each variant that has one is taking the first-field type of every
variant. -/
theorem filterMap_heads_eq (vs : List Variant)
    (hf : ∀ v ∈ vs, v.fields.toList ≠ []) :
    (vs.filterMap (fun v => v.fields.toList.head?)).map Field.ty =
      vs.map specFirstTy := by
  induction vs with
  | nil => rfl
  | cons v rest ih =>
    have hv := hf v (by simp)
    cases hl : v.fields.toList with
    | nil => exact absurd hl hv
    | cons f ffs =>
      simp [hl, specFirstTy, ih (fun w hw => hf w (by simp [hw]))]

/-- On an accepted enum the source message builder produces exactly the
message the spec demands. -/
theorem sum_expected_eq (e : DataEnum) (id : String)
    (hne : e.variants ≠ []) (hf : ∀ v ∈ e.variants, v.fields.toList ≠ []) :
    Parse.sum_expected_one_of e id = specExpectedMsg e id := by
  cases hvs : e.variants with
  | nil => exact absurd hvs hne
  | cons v rest =>
    have hv : v.fields.toList ≠ [] := hf v (by rw [hvs]; simp)
    cases hl : v.fields.toList with
    | nil => exact absurd hl hv
    | cons f ffs =>
      have htail : (rest.filterMap (fun w => w.fields.toList.head?)).map Field.ty
          = rest.map specFirstTy :=
        filterMap_heads_eq rest (fun w hw => hf w (by rw [hvs]; simp [hw]))
      have hpre15 : ("Error Parsing: " : String).length = 15 := rfl
      have hpre : ("Error Parsing: " ++ id ++ ", Expected One Of: " ++
          f.ty.tokens) ≠ "" := by
        intro hc
        have hlen := congrArg String.length hc
        simp only [String.length_append] at hlen
        rw [hpre15] at hlen
        have hzero : ("" : String).length = 0 := rfl
        rw [hzero] at hlen
        omega
      unfold Parse.sum_expected_one_of
      rw [hvs]
      rw [show (v :: rest).filterMap (fun w => w.fields.toList.head?) =
          f :: rest.filterMap (fun w => w.fields.toList.head?) from by
        simp [hl]]
      rw [List.foldl_cons, if_pos rfl, expectedFoldAux id _ _ hpre, htail]
      simp [specExpectedMsg, hvs, tyCommaSep, specFirstTy, hl,
        String.append_assoc]

/-- When no peek succeeds, the emitted chain reaches the fallback failure. -/
theorem chainSem_no_match {α : Type} (p : Ty → Bool) :
    ∀ (chain : List (Ty × α)) (msg : String),
      (∀ b ∈ chain, p b.1 = false) → chainSem p chain msg = .error msg := by
  intro chain
  induction chain with
  | nil => intro msg _; rfl
  | cons b rest ih =>
    intro msg h
    obtain ⟨t, c⟩ := b
    have hb : p t = false := h (t, c) (by simp)
    simp [chainSem, hb, ih msg (fun x hx => h x (by simp [hx]))]

/-- The emitted chain commits to the earliest branch whose peek succeeds:
whatever later branches would do, the first matching branch returns its
construction. -/
theorem chainSem_first_match {α : Type} (p : Ty → Bool) :
    ∀ (chain : List (Ty × α)) (msg : String) (i : Nat) (hi : i < chain.length),
      p ((chain.get ⟨i, hi⟩).1) = true →
      (∀ (j : Nat) (hj : j < i), p ((chain.get ⟨j, Nat.lt_trans hj hi⟩).1) = false) →
      chainSem p chain msg = .ok ((chain.get ⟨i, hi⟩).2) := by
  intro chain
  induction chain with
  | nil =>
    intro msg i hi _ _
    exact absurd hi (Nat.not_lt_zero i)
  | cons b rest ih =>
    intro msg i hi hp hprev
    obtain ⟨t, c⟩ := b
    cases i with
    | zero =>
      have hp0 : p t = true := hp
      simp [chainSem, hp0]
    | succ k =>
      have h0 : p t = false := hprev 0 (Nat.succ_pos k)
      have hk : k < rest.length := Nat.lt_of_succ_lt_succ hi
      have hpk : p ((rest.get ⟨k, hk⟩).1) = true := hp
      have hprevk : ∀ (j : Nat) (hj : j < k),
          p ((rest.get ⟨j, Nat.lt_trans hj hk⟩).1) = false := by
        intro j hj
        exact hprev (j + 1) (Nat.succ_lt_succ hj)
      simp [chainSem, h0]
      exact ih msg k hk hpk hprevk

/-- Claim C2: the Parse generator applied to an enum returns an error, before
emitting any code, if and only if the enum has zero variants or some variant
has zero fields: a zero-variant enum fails with exactly the empty-enum
message anchored at the `enum` keyword's span, and otherwise the first
variant in declaration order with zero fields fails with exactly
"#[derive(Parse)] Requires At Least One Field" anchored at that variant's
name; when every variant has at least one field, generation succeeds. -/
theorem parse_sum_precondition_errors (e : DataEnum) (id : String) :
    (e.variants = [] →
      Parse.sum e id = .error ⟨e.enumTokenSpan,
        "Cannot #[derive(Parse)] On An Empty Enum. It\x27s Not Constructable At Runtime"⟩)
    ∧ (∀ v0 : Variant,
      e.variants.find? (fun v => v.fields.toList.isEmpty) = some v0 →
      Parse.sum e id =
        .error ⟨v0.identSpan, "#[derive(Parse)] Requires At Least One Field"⟩)
    ∧ ((∃ t : TokenStream, Parse.sum e id = .ok t) ↔
      (e.variants ≠ [] ∧ ∀ v ∈ e.variants, v.fields.toList ≠ [])) := by
  refine ⟨?_, ?_, ?_⟩
  · intro h
    simp [Parse.sum, h]
  · intro v0 h
    have hne : e.variants ≠ [] := by
      intro hnil
      rw [hnil] at h
      simp at h
    simp [Parse.sum, hne, collect_branches_error e.variants v0 h]
  · constructor
    · rintro ⟨t, ht⟩
      by_cases hne : e.variants = []
      · simp [Parse.sum, hne] at ht
      · refine ⟨hne, ?_⟩
        intro v hv hnil
        have hsome : (e.variants.find? (fun v => v.fields.toList.isEmpty)).isSome := by
          rw [List.find?_isSome]
          exact ⟨v, hv, by simp [hnil]⟩
        obtain ⟨w, hw⟩ := Option.isSome_iff_exists.mp hsome
        simp [Parse.sum, hne, collect_branches_error e.variants w hw] at ht
    · rintro ⟨hne, hf⟩
      refine ⟨(e.variants.map (fun v =>
        Parse.branchToks (specFirstTy v) (Parse.constructToks v))).flatten ++
          Parse.errToks (Parse.sum_expected_one_of e id), ?_⟩
      simp [Parse.sum, hne, collect_branches_ok e.variants hf]

/-- Claim C2 witness: a one-variant enum whose variant has no fields is
rejected with the at-least-one-field diagnostic at the variant's name
(span 3). -/
theorem parse_sum_precondition_errors_witness :
    Parse.sum ⟨7, [⟨"V", 3, .unit⟩]⟩ "E" =
      .error ⟨3, "#[derive(Parse)] Requires At Least One Field"⟩ :=
  (parse_sum_precondition_errors ⟨7, [⟨"V", 3, .unit⟩]⟩ "E").2.1
    ⟨"V", 3, .unit⟩ (by decide)

/-- Claim C1: for an enum whose variants each have at least one field, the
Parse generator emits, in declaration order, one lookahead branch per variant
peeking the type of that variant's first field, followed by the fallback
failure; the branch construction parses all of the variant's fields in
declaration order (`constructToks`); under the chain semantics of the
emitted fragment, the earliest branch whose peek succeeds returns its
construction immediately (no backtracking — when two branches could both
match, the earlier-declared one is selected), and when no peek succeeds the
fragment fails with exactly
"Error Parsing: <TypeName>, Expected One Of: T1, T2, …" listing the
first-field type of every variant in declaration order. -/
theorem parse_sum_lookahead (e : DataEnum) (id : String)
    (hne : e.variants ≠ []) (hf : ∀ v ∈ e.variants, v.fields.toList ≠ []) :
    (Parse.sum e id = .ok
      (((specChain e).map (fun b => Parse.branchToks b.1 b.2)).flatten ++
        Parse.errToks (specExpectedMsg e id)))
    ∧ Parse.sum_expected_one_of e id = specExpectedMsg e id
    ∧ (∀ p : Ty → Bool, (∀ b ∈ specChain e, p b.1 = false) →
        chainSem p (specChain e) (specExpectedMsg e id) =
          .error (specExpectedMsg e id))
    ∧ (∀ (p : Ty → Bool) (i : Nat) (hi : i < (specChain e).length),
        p (((specChain e).get ⟨i, hi⟩).1) = true →
        (∀ (j : Nat) (hj : j < i),
          p (((specChain e).get ⟨j, Nat.lt_trans hj hi⟩).1) = false) →
        chainSem p (specChain e) (specExpectedMsg e id) =
          .ok (((specChain e).get ⟨i, hi⟩).2))
    ∧ (specChain e).length = e.variants.length := by
  have hmsg := sum_expected_eq e id hne hf
  have hss : (specChain e).map (fun b => Parse.branchToks b.1 b.2) =
      e.variants.map (fun v =>
        Parse.branchToks (specFirstTy v) (Parse.constructToks v)) := by
    rw [show specChain e =
        e.variants.map (fun v => (specFirstTy v, Parse.constructToks v)) from rfl,
      List.map_map]
    rfl
  refine ⟨?_, hmsg, fun p hp => chainSem_no_match p _ _ hp,
    fun p i hi hp hprev => chainSem_first_match p _ _ i hi hp hprev,
    by simp [specChain]⟩
  rw [hss]
  simp [Parse.sum, hne, collect_branches_ok e.variants hf, hmsg]

/-- Claim C1 witness: a two-variant enum `E \x7b A(X), B(Y) \x7d` where the
upcoming input could match both first-field types selects the
earlier-declared variant `A`. -/
theorem parse_sum_lookahead_witness :
    chainSem (fun _ => true)
      (specChain ⟨9, [⟨"A", 1, .unnamed [⟨none, 2, ⟨"X"⟩⟩]⟩,
                      ⟨"B", 3, .unnamed [⟨none, 4, ⟨"Y"⟩⟩]⟩]⟩)
      (specExpectedMsg ⟨9, [⟨"A", 1, .unnamed [⟨none, 2, ⟨"X"⟩⟩]⟩,
                            ⟨"B", 3, .unnamed [⟨none, 4, ⟨"Y"⟩⟩]⟩]⟩ "E") =
      .ok (Parse.constructToks ⟨"A", 1, .unnamed [⟨none, 2, ⟨"X"⟩⟩]⟩) :=
  ((parse_sum_lookahead ⟨9, [⟨"A", 1, .unnamed [⟨none, 2, ⟨"X"⟩⟩]⟩,
      ⟨"B", 3, .unnamed [⟨none, 4, ⟨"Y"⟩⟩]⟩]⟩ "E" (by decide)
    (by decide)).2.2.2.1 (fun _ => true) 0 (by decide) (by decide)
      (fun j hj => absurd hj (Nat.not_lt_zero j))).trans (by rfl)

/-- Claim C3: the Spanable generator always selects the first field in
declaration order: for a struct with at least one field the emitted accessor
body delegates to the representative position of the first member; for a
struct with zero fields it is the fixed call-site fallback; for a nonempty
enum it emits exactly one match arm per variant in declaration order, each
destructuring via `variant_pattern()` and evaluating to the span of the
variant's first bound field, or the fallback for a fieldless variant; for a
zero-variant enum it emits the unreachable `match *self \x7b\x7d`. -/
theorem spanable_first_field_selection :
    (∀ (s : DataStruct) (m : Member) (ms : List Member),
      s.fields.members = m :: ms →
      Spanable.product s =
        [Tok.punct "::", Tok.ident "hizli", Tok.punct "::",
         Tok.ident "Spanable", Tok.punct "::", Tok.ident "spanable"] ++
          Tok.grp .paren (selfMemberToks m))
    ∧ (∀ s : DataStruct, s.fields.members = [] →
      Spanable.product s = callSiteToks)
    ∧ (∀ e : DataEnum, e.variants = [] →
      Spanable.sum e =
        Tok.ident "match" :: Tok.punct "*" :: Tok.ident "self" ::
          Tok.grp .brace [])
    ∧ (∀ e : DataEnum, e.variants ≠ [] →
      Spanable.sum e =
        Tok.ident "match" :: Tok.ident "self" ::
          Tok.grp .brace (sepComma (e.variants.map Spanable.arm)))
    ∧ (∀ (v : Variant) (fb : FieldBinding) (rest : List FieldBinding),
      (VariantBinding.new v).field_bindings = fb :: rest →
      Spanable.arm v =
        Tok.ident "Self" :: Tok.punct "::" ::
          (VariantBinding.new v).variant_pattern ++ Tok.punct "=>" ::
            ([Tok.ident fb.ident, Tok.punct ".", Tok.ident "span"] ++
              Tok.grp .paren []))
    ∧ (∀ v : Variant, (VariantBinding.new v).field_bindings = [] →
      Spanable.arm v =
        Tok.ident "Self" :: Tok.punct "::" ::
          (VariantBinding.new v).variant_pattern ++ Tok.punct "=>" ::
            callSiteToks)
    ∧ (∀ v : Variant,
      (VariantBinding.new v).field_bindings =
        FieldBinding.from_fields v.fields) := by
  refine ⟨?_, ?_, ?_, ?_, ?_, ?_, fun v => rfl⟩
  · intro s m ms h
    simp [Spanable.product, h]
  · intro s h
    simp [Spanable.product, h]
  · intro e h
    simp [Spanable.sum, h]
  · intro e h
    simp [Spanable.sum, h]
  · intro v fb rest h
    simp [Spanable.arm, h]
  · intro v h
    simp [Spanable.arm, h]

/-- Claim C3 witness: a two-named-field struct delegates to its first field
`a`, and a one-variant tuple enum arm destructures the variant and evaluates
the first binding's span. -/
theorem spanable_first_field_selection_witness :
    Spanable.product ⟨0, .named [⟨some "a", 1, ⟨"A"⟩⟩, ⟨some "b", 2, ⟨"B"⟩⟩]⟩ =
      [Tok.punct "::", Tok.ident "hizli", Tok.punct "::",
       Tok.ident "Spanable", Tok.punct "::", Tok.ident "spanable"] ++
        Tok.grp .paren (selfMemberToks (.named "a")) :=
  spanable_first_field_selection.1
    ⟨0, .named [⟨some "a", 1, ⟨"A"⟩⟩, ⟨some "b", 2, ⟨"B"⟩⟩]⟩
    (.named "a") [.named "b"] (by decide)

/-- Claim C4 divergence witness: on the accepted input
`struct S \x7b a: A \x7d` the Parse entry point emits a genuine trait
implementation (`impl ::syn::parse::Parse for S`, with the `for` keyword),
but the Spanable entry point emits `impl S \x7b fn spanable(&self) … \x7d`
— an inherent impl with no trait path and no `for` anywhere in its output —
even though the crate documentation states that `#[derive(Spanable)]`
implements the `hizli::Spanable` trait (and the emitted body itself calls
`::hizli::Spanable::spanable`, which tracks that trait). -/
theorem spanable_handler_inherent_impl :
    (Spanable.handler ⟨"S", ⟨[], [], []⟩,
        .struct ⟨0, .named [⟨some "a", 1, ⟨"A"⟩⟩]⟩⟩ =
      .ok [Tok.punct "#", Tok.bopen .bracket, Tok.ident "automatically_derived",
        Tok.bclose .bracket, Tok.ident "impl", Tok.ident "S",
        Tok.bopen .brace, Tok.ident "fn", Tok.ident "spanable",
        Tok.bopen .paren, Tok.punct "&", Tok.ident "self", Tok.bclose .paren,
        Tok.punct "->", Tok.punct "::", Tok.ident "proc_macro2",
        Tok.punct "::", Tok.ident "Span", Tok.bopen .brace, Tok.punct "::",
        Tok.ident "hizli", Tok.punct "::", Tok.ident "Spanable",
        Tok.punct "::", Tok.ident "spanable", Tok.bopen .paren,
        Tok.ident "self", Tok.punct ".", Tok.ident "a", Tok.bclose .paren,
        Tok.bclose .brace, Tok.bclose .brace])
    ∧ Tok.ident "for" ∉
      ((Spanable.handler ⟨"S", ⟨[], [], []⟩,
          .struct ⟨0, .named [⟨some "a", 1, ⟨"A"⟩⟩]⟩⟩).toOption.getD [])
    ∧ (Parse.handler ⟨"S", ⟨[], [], []⟩,
        .struct ⟨0, .named [⟨some "a", 1, ⟨"A"⟩⟩]⟩⟩).isOk = true
    ∧ Tok.ident "for" ∈
      ((Parse.handler ⟨"S", ⟨[], [], []⟩,
          .struct ⟨0, .named [⟨some "a", 1, ⟨"A"⟩⟩]⟩⟩).toOption.getD [])
    ∧ Tok.ident "Parse" ∈
      ((Parse.handler ⟨"S", ⟨[], [], []⟩,
          .struct ⟨0, .named [⟨some "a", 1, ⟨"A"⟩⟩]⟩⟩).toOption.getD []) := by
  refine ⟨by decide, by decide, by decide, by decide, by decide⟩

end Hizli
